import Mathlib

/-!
Verification of the turbine-catalog import pipeline (`src/main.py`).

The definitions below are a shallow embedding of the code:
`fetch_google_sheet_csv` (URL resolution), `parse_turbine_csv` (CSV text to
typed records, including the `csv.reader` / `csv.DictReader` semantics the
code relies on), `to_float` (defensive numeric coercion), `import_turbines`
(upsert-by-name reconciliation) and `list_turbines` (status filtering).
Machine floats are modelled by `PyFloat` (exact rationals plus the infinite
and NaN points); fallible code returns `Except`/`Option`.  The document
store (`database.py`, not part of the sources) is modelled from the spec's
collaborator contract in section 6.
-/

/-- The set of characters Python's `str.strip()` removes, restricted to the
ASCII range the pipeline manipulates. -/
def isPyWs (c : Char) : Bool :=
  c = ' ' || c = '\t' || c = '\n' || c = '\r' || c = '\x0b' || c = '\x0c'

/-- Strip leading and trailing whitespace, as `float(...)` does before
parsing its argument. -/
def trimWs (l : List Char) : List Char :=
  ((l.dropWhile isPyWs).reverse.dropWhile isPyWs).reverse

/-- Consume one optional leading sign; `true` means negative. -/
def parseSign : List Char → Bool × List Char
  | '+' :: cs => (false, cs)
  | '-' :: cs => (true, cs)
  | cs => (false, cs)

/-- Longest run of digits with single underscores allowed between digits,
the lexical rule of Python numeric literals. Returns the digits (with
underscores removed) and the unconsumed remainder. -/
def digitsTail : List Char → List Char × List Char
  | [] => ([], [])
  | c :: cs =>
    if c.isDigit then
      let p := digitsTail cs
      (c :: p.1, p.2)
    else if c = '_' then
      match cs with
      | c2 :: cs2 =>
        if c2.isDigit then
          let p := digitsTail cs2
          (c2 :: p.1, p.2)
        else ([], c :: cs)
      | [] => ([], [c])
    else ([], c :: cs)

/-- A digit run must start with a digit (an underscore may not lead). -/
def parseDigits : List Char → Option (List Char × List Char)
  | [] => none
  | c :: cs => if c.isDigit then some (digitsTail (c :: cs)) else none

/-- Decimal value of a digit list (most significant first). -/
def natOfDigits (ds : List Char) : Nat :=
  ds.foldl (fun a c => a * 10 + (c.toNat - 48)) 0

/-- Parse the optional exponent part (`e`/`E`, optional sign, digits); the
whole remainder must be consumed. An empty remainder means exponent 0. -/
def parseExp : List Char → Option Int
  | [] => some 0
  | c :: cs =>
    if c = 'e' || c = 'E' then
      let p := parseSign cs
      match parseDigits p.2 with
      | some (ds, rest) =>
        if rest = [] then
          some (if p.1 then -(natOfDigits ds : Int) else (natOfDigits ds : Int))
        else none
      | none => none
    else none

/-- Exact value of a finite float literal: integer part, fractional part and
exponent. -/
def ratOfParts (ip fp : List Char) (e : Int) : Rat :=
  (natOfDigits (ip ++ fp) : Rat) * (10 : Rat) ^ (e - (fp.length : Int))

/-- Parse an unsigned Python float literal body (`digits [. digits] [exp]`,
`. digits [exp]`, or `digits . [exp]`), consuming the whole input. -/
def parseDecimal (l : List Char) : Option Rat :=
  match l with
  | '.' :: rest =>
    match parseDigits rest with
    | some (fp, r2) => (parseExp r2).map (ratOfParts [] fp)
    | none => none
  | _ =>
    match parseDigits l with
    | some (ip, r1) =>
      match r1 with
      | '.' :: r2 =>
        match r2 with
        | c :: _ =>
          if c.isDigit then
            match parseDigits r2 with
            | some (fp, r3) => (parseExp r3).map (ratOfParts ip fp)
            | none => none
          else (parseExp r2).map (ratOfParts ip [])
        | [] => some (ratOfParts ip [] 0)
      | _ => (parseExp r1).map (ratOfParts ip [])
    | none => none

/-- The values Python's `float(...)` can return: finite values are kept
exactly as rationals; the infinities and NaN are separate points. -/
inductive PyFloat where
  | finite (q : Rat)
  | posInf
  | negInf
  | nan
deriving DecidableEq, Repr

/-- Semantics of Python's `float(s)` on a string: strip whitespace, one
optional sign, then either an `inf`/`infinity`/`nan` word (case-insensitive)
or a decimal literal; `none` models the `ValueError` raised otherwise. -/
def pyFloat (s : String) : Option PyFloat :=
  let p := parseSign (trimWs s.toList)
  let low := p.2.map Char.toLower
  if low = "inf".toList || low = "infinity".toList then
    some (if p.1 then PyFloat.negInf else PyFloat.posInf)
  else if low = "nan".toList then some PyFloat.nan
  else (parseDecimal p.2).map (fun q => PyFloat.finite (if p.1 then -q else q))

/-- `to_float` from `parse_turbine_csv` (src/main.py lines 122-126):
`float(x) if x not in (None, '', 'NA', 'N/A') else None`, with the
`try`/`except` that turns any parse failure into `None`. -/
def to_float (x : Option String) : Option PyFloat :=
  match x with
  | none => none
  | some s => if s = "" || s = "NA" || s = "N/A" then none else pyFloat s

/-- One step of Python's `str.title()`: a character is lowercased when the
previous character was a letter and capitalized otherwise; case mapping
fixes non-letters. The flag records whether the previous character was a
letter (for ASCII, "cased" coincides with "alphabetic"). -/
def titleGo : Bool → List Char → List Char
  | _, [] => []
  | prev, c :: cs => (if prev then c.toLower else c.toUpper) :: titleGo c.isAlpha cs

/-- Python's `str.title()` (ASCII fragment), as used for the `status` field
in src/main.py line 130 and the filter in line 187. -/
def pyTitle (s : String) : String := String.mk (titleGo false s.toList)

/-- Per-index restatement of the title-casing rule: position `i` is
lowercased exactly when the character at `i - 1` is a letter (at position 0
the flag `b` decides; inside a string `b` is false). -/
def titleSpecCharB (b : Bool) (l : List Char) (i : Nat) (c : Char) : Char :=
  let prevAlpha : Bool :=
    if i = 0 then b else
      match l.get? (i - 1) with
      | some p => p.isAlpha
      | none => false
  if prevAlpha then c.toLower else c.toUpper

/-- Positional specification of Python title casing: each character is
capitalized iff it is not preceded by a letter. -/
def titleSpec (s : String) : String :=
  String.mk (s.toList.mapIdx (titleSpecCharB false s.toList))

/-- Title case in the glossary's sense: capitalize the first character of
each whitespace-separated word and lowercase the rest. -/
def glossGo : Bool → List Char → List Char
  | _, [] => []
  | start, c :: cs => (if start then c.toUpper else c.toLower) :: glossGo c.isWhitespace cs

/-- Glossary title casing of a whole string (word starts follow whitespace
or the start of the string). -/
def glossaryTitle (s : String) : String := String.mk (glossGo true s.toList)

/-- Python's `str.strip()` (ASCII whitespace). -/
def pyStrip (s : String) : String := String.mk (trimWs s.toList)

/-- Python's `str.lower()` (ASCII fragment). -/
def pyLower (s : String) : String := String.mk (s.toList.map Char.toLower)

/-- Python's `a or b` on optional strings: `None` and `''` are falsy. -/
def orS : Option String → Option String → Option String
  | none, y => y
  | some s, y => if s = "" then y else some s

/-- Python's `a or d` with a string default: used for the sentinel name and
the `Unknown` status. -/
def strOr (x : Option String) (d : String) : String :=
  match x with
  | none => d
  | some s => if s = "" then d else s

/-- Insert into a Python dict represented as an association list with unique
keys in insertion order: an existing key keeps its position and takes the
new value, a new key is appended. -/
def dictInsert {α : Type} (d : List (String × α)) (k : String) (v : α) : List (String × α) :=
  if d.any (fun p => p.1 = k) then d.map (fun p => if p.1 = k then (k, v) else p)
  else d ++ [(k, v)]

/-- Build a Python dict from a pair sequence (later pairs win). -/
def dictOfPairs {α : Type} (ps : List (String × α)) : List (String × α) :=
  ps.foldl (fun d p => dictInsert d p.1 p.2) []

/-- Dict lookup (`d.get(k)`). -/
def dictGet {α : Type} (d : List (String × α)) (k : String) : Option α :=
  (d.find? (fun p => p.1 = k)).map (fun p => p.2)

/-- `csv.DictReader` row pairing: each fieldname takes the cell at its
position, fieldnames beyond the row's length take the rest value `None`. -/
def zipRestval : List String → List String → List (String × Option String)
  | [], _ => []
  | f :: fs, [] => (f, none) :: zipRestval fs []
  | f :: fs, c :: cs => (f, some c) :: zipRestval fs cs

/-- The dict `csv.DictReader` yields for one row (for rows no longer than
the header; a longer row adds the `None` rest key, which makes the code
crash and is guarded separately in `parseRows`). -/
def dictReaderDict (fieldnames row : List String) : List (String × Option String) :=
  dictOfPairs (zipRestval fieldnames row)

/-- The `normalized` dict of `parse_turbine_csv` line 114: keys are stripped
and lowercased, values have `None` replaced by `''` and are stripped. -/
def normalizedDict (fieldnames row : List String) : List (String × String) :=
  dictOfPairs ((dictReaderDict fieldnames row).map
    (fun p => (pyLower (pyStrip p.1), pyStrip (p.2.getD ""))))

/-- `normalized.get(k)` for one row. -/
def normGet (fieldnames row : List String) (k : String) : Option String :=
  dictGet (normalizedDict fieldnames row) k

/-- The `Turbine` record (schemas.py is not part of the sources; the fields
are exactly those constructed in src/main.py lines 128-135). -/
structure Turbine where
  name : String
  status : String
  latitude : Option PyFloat
  longitude : Option PyFloat
  capacity_mw : Option PyFloat
  location : Option String
deriving DecidableEq, Repr

/-- Body of the row loop of `parse_turbine_csv` (src/main.py lines 112-136):
alias resolution through `or`-chains, sentinel name, titled status,
defensive numeric coercion, `location or None`. -/
def recordOfRow (fieldnames row : List String) : Turbine :=
  let get := fun k => normGet fieldnames row k
  let nameV := orS (orS (orS (get "name") (get "turbine")) (get "id")) (get "identifier")
  let statusV := orS (get "status") (get "state")
  let latV := orS (get "lat") (get "latitude")
  let lngV := orS (get "lng") (get "longitude")
  let capacityV := orS (orS (get "capacity_mw") (get "capacity")) (get "mw")
  let locationV := orS (orS (get "location") (get "site")) (get "address")
  { name := strOr nameV "Unnamed Turbine"
    status := pyTitle (strOr statusV "Unknown")
    latitude := to_float latV
    longitude := to_float lngV
    capacity_mw := to_float capacityV
    location := match locationV with
      | none => none
      | some s => if s = "" then none else some s }

/-- States of the `csv.reader` field/record state machine (excel dialect:
delimiter `,`, quote `"`, doubled quotes, non-strict). -/
inductive CsvSt where
  | startRecord
  | startField
  | inField
  | inQuoted
  | quoteInQuoted
  | eatCrnl
deriving DecidableEq

/-- The `csv.reader` state machine over the raw character stream. `'\n'`
terminates a physical line (the `StringIO` line discipline), emitting the
pending record; `'\r'` inside an unquoted field ends the field and only
`'\r'`/`'\n'` may follow before the line ends (otherwise `csv.Error`, the
`eatCrnl` error case). Arguments: state, input, current field, current
record, emitted records. -/
def csvLoop : CsvSt → List Char → List Char → List String → List (List String) →
    Except Unit (List (List String))
  | CsvSt.startRecord, [], _, _, out => Except.ok out
  | CsvSt.startRecord, c :: cs, _, _, out =>
    if c = '\n' then csvLoop CsvSt.startRecord cs [] [] (out ++ [[]])
    else if c = '\r' then csvLoop CsvSt.eatCrnl cs [] [] out
    else if c = '"' then csvLoop CsvSt.inQuoted cs [] [] out
    else if c = ',' then csvLoop CsvSt.startField cs [] [""] out
    else csvLoop CsvSt.inField cs [c] [] out
  | CsvSt.startField, [], _, row, out => Except.ok (out ++ [row ++ [""]])
  | CsvSt.startField, c :: cs, _, row, out =>
    if c = '\n' then csvLoop CsvSt.startRecord cs [] [] (out ++ [row ++ [""]])
    else if c = '\r' then csvLoop CsvSt.eatCrnl cs [] (row ++ [""]) out
    else if c = '"' then csvLoop CsvSt.inQuoted cs [] row out
    else if c = ',' then csvLoop CsvSt.startField cs [] (row ++ [""]) out
    else csvLoop CsvSt.inField cs [c] row out
  | CsvSt.inField, [], field, row, out => Except.ok (out ++ [row ++ [String.mk field]])
  | CsvSt.inField, c :: cs, field, row, out =>
    if c = '\n' then csvLoop CsvSt.startRecord cs [] [] (out ++ [row ++ [String.mk field]])
    else if c = '\r' then csvLoop CsvSt.eatCrnl cs [] (row ++ [String.mk field]) out
    else if c = ',' then csvLoop CsvSt.startField cs [] (row ++ [String.mk field]) out
    else csvLoop CsvSt.inField cs (field ++ [c]) row out
  | CsvSt.inQuoted, [], field, row, out => Except.ok (out ++ [row ++ [String.mk field]])
  | CsvSt.inQuoted, c :: cs, field, row, out =>
    if c = '"' then csvLoop CsvSt.quoteInQuoted cs field row out
    else csvLoop CsvSt.inQuoted cs (field ++ [c]) row out
  | CsvSt.quoteInQuoted, [], field, row, out => Except.ok (out ++ [row ++ [String.mk field]])
  | CsvSt.quoteInQuoted, c :: cs, field, row, out =>
    if c = '"' then csvLoop CsvSt.inQuoted cs (field ++ [c]) row out
    else if c = '\n' then csvLoop CsvSt.startRecord cs [] [] (out ++ [row ++ [String.mk field]])
    else if c = '\r' then csvLoop CsvSt.eatCrnl cs [] (row ++ [String.mk field]) out
    else if c = ',' then csvLoop CsvSt.startField cs [] (row ++ [String.mk field]) out
    else csvLoop CsvSt.inField cs (field ++ [c]) row out
  | CsvSt.eatCrnl, [], _, row, out => Except.ok (out ++ [row])
  | CsvSt.eatCrnl, c :: cs, _, row, out =>
    if c = '\n' then csvLoop CsvSt.startRecord cs [] [] (out ++ [row])
    else if c = '\r' then csvLoop CsvSt.eatCrnl cs [] row out
    else Except.error ()

/-- All records `csv.reader(StringIO(text))` yields, or the `csv.Error` the
non-universal-newline discipline raises on a stray `'\r'`. -/
def csvRows (s : String) : Except Unit (List (List String)) :=
  csvLoop CsvSt.startRecord s.toList [] [] []

/-- The `for row in reader` loop of `parse_turbine_csv`: `csv.DictReader`
silently skips blank rows; a row longer than the header puts the rest list
under the `None` key, on which `(v or '').strip()` raises (modelled as the
error case). -/
def parseRows (fieldnames : List String) : List (List String) → Except Unit (List Turbine)
  | [] => Except.ok []
  | row :: rest =>
    if row = [] then parseRows fieldnames rest
    else if fieldnames.length < row.length then Except.error ()
    else
      match parseRows fieldnames rest with
      | Except.ok ts => Except.ok (recordOfRow fieldnames row :: ts)
      | Except.error e => Except.error e

/-- `parse_turbine_csv` (src/main.py lines 103-138): first row is the
header, every further row becomes one `Turbine`. -/
def parse_turbine_csv (csv_text : String) : Except Unit (List Turbine) :=
  match csvRows csv_text with
  | Except.error e => Except.error e
  | Except.ok [] => Except.ok []
  | Except.ok (fieldnames :: rest) => parseRows fieldnames rest

/-- Error taxonomy of the import pipeline as surfaced over HTTP. -/
inductive ApiError where
  | invalidUrl
  | fetchError (code : Nat)
  | storeUnavailable
  | internalError
deriving DecidableEq, Repr

/-- Remove `p` from the front of `l` when it is a prefix. -/
def stripPrefixL : List Char → List Char → Option (List Char)
  | [], l => some l
  | _ :: _, [] => none
  | p :: ps, c :: cs => if c = p then stripPrefixL ps cs else none

/-- First split position of `sep` in `l`: the part before the first
occurrence and the part after it. -/
def findSplit (sep : List Char) : List Char → Option (List Char × List Char)
  | [] => none
  | c :: cs =>
    match stripPrefixL sep (c :: cs) with
    | some rest => some ([], rest)
    | none => (findSplit sep cs).map (fun p => (c :: p.1, p.2))

/-- Python's `s.split(sep)` for a non-empty separator, driven by enough fuel
to consume the input (each round removes at least `sep.length` characters). -/
def splitFuel (sep : List Char) : Nat → List Char → List (List Char)
  | 0, l => [l]
  | fuel + 1, l =>
    match findSplit sep l with
    | none => [l]
    | some (b, a) => b :: splitFuel sep fuel a

/-- Python's `s.split(sep)` (non-empty separator). -/
def pySplit (sep s : String) : List String :=
  (splitFuel sep.toList (s.toList.length + 1) s.toList).map String.mk

/-- URL-resolution part of `fetch_google_sheet_csv` (src/main.py lines
74-95): pass export URLs through, otherwise extract the document id after
`/d/` (failing with the invalid-URL error when `/d/` is absent) and the
optional `gid`, and build the canonical export URL. -/
def resolve_sheet_url (sheet_url : String) : Except ApiError String :=
  if "export?format=csv".toList <:+: sheet_url.toList then Except.ok sheet_url
  else
    match pySplit "/d/" sheet_url with
    | _ :: parts1 :: _ =>
      let doc_id := match pySplit "/" parts1 with
        | d :: _ => d
        | [] => ""
      let gid : Option String :=
        if "gid=".toList <:+: sheet_url.toList then
          match pySplit "gid=" sheet_url with
          | _ :: g1 :: _ =>
            some (match pySplit "&" g1 with
              | g :: _ => g
              | [] => "")
          | _ => none
        else none
      match gid with
      | some g =>
        if g = "" then
          Except.ok ("https://docs.google.com/spreadsheets/d/" ++ doc_id ++ "/export?format=csv")
        else
          Except.ok ("https://docs.google.com/spreadsheets/d/" ++ doc_id ++
            "/export?format=csv&gid=" ++ g)
      | none =>
        Except.ok ("https://docs.google.com/spreadsheets/d/" ++ doc_id ++ "/export?format=csv")
    | _ => Except.error ApiError.invalidUrl

/-- `fetch_google_sheet_csv` (src/main.py lines 72-100): resolve the URL,
then perform the single network fetch, modelled by the oracle `fetchText`
mapping an export URL to either the body text or a non-200 status code. -/
def fetch_google_sheet_csv (fetchText : String → Except Nat String) (sheet_url : String) :
    Except ApiError String :=
  match resolve_sheet_url sheet_url with
  | Except.error e => Except.error e
  | Except.ok export_url =>
    match fetchText export_url with
    | Except.ok txt => Except.ok txt
    | Except.error code => Except.error (ApiError.fetchError code)

/-- Modelled from the spec: the Catalog Store collaborator (`database.py` is
not among the sources). A document is an opaque store-generated identifier
together with the turbine data fields; the store keeps documents in
insertion order and hands out fresh identifiers from a counter. -/
structure Store where
  docs : List (Nat × Turbine)
  nextId : Nat
deriving DecidableEq, Repr

/-- Modelled from the spec: `findOne(collection, {name: n})` — the first
stored document whose `name` equals `n` exactly, if any. -/
def find_one (st : Store) (n : String) : Option (Nat × Turbine) :=
  st.docs.find? (fun d => d.2.name = n)

/-- Replace the fields of the first document carrying the given identifier. -/
def updateFirst : List (Nat × Turbine) → Nat → Turbine → List (Nat × Turbine)
  | [], _, _ => []
  | d :: ds, i, t => if d.1 = i then (i, t) :: ds else d :: updateFirst ds i t

/-- Modelled from the spec: `updateOne(collection, {_id: i}, {$set: fields})`
— overwrite every data field of the document with identifier `i`. -/
def update_one (st : Store) (i : Nat) (t : Turbine) : Store :=
  { st with docs := updateFirst st.docs i t }

/-- Modelled from the spec: `insertOne(collection, fields)` — append a new
document under a fresh store-generated identifier. -/
def create_document (st : Store) (t : Turbine) : Store :=
  { docs := st.docs ++ [(st.nextId, t)], nextId := st.nextId + 1 }

/-- Well-formedness of the modelled store: identifiers are pairwise distinct
and below the fresh-identifier counter. -/
def WFStore (st : Store) : Prop :=
  (st.docs.map Prod.fst).Nodup ∧ ∀ d ∈ st.docs, d.1 < st.nextId

instance : DecidablePred WFStore := fun st =>
  inferInstanceAs (Decidable ((st.docs.map Prod.fst).Nodup ∧ ∀ d ∈ st.docs, d.1 < st.nextId))

/-- Result value of the import endpoint. -/
structure ImportResult where
  inserted : Nat
  updated : Nat
deriving DecidableEq, Repr

/-- The reconciliation loop of `import_turbines` (src/main.py lines
152-164): for each record in order, look up a stored document by exact
`name`; update it (counting an update) when found, insert a new document
(counting an insert) otherwise. -/
def importLoop : Store → Nat → Nat → List Turbine → ImportResult × Store
  | st, ins, upd, [] => (⟨ins, upd⟩, st)
  | st, ins, upd, t :: ts =>
    match find_one st t.name with
    | some ex => importLoop (update_one st ex.1 t) ins (upd + 1) ts
    | none => importLoop (create_document st t) (ins + 1) upd ts

/-- `import_turbines` (src/main.py lines 141-165): fail up front when the
store is not configured, otherwise fetch, parse, and run the reconciliation
loop from zero counters. A parser crash (stray carriage return or an
over-long row) surfaces as an internal error. -/
def import_turbines (db : Option Store) (fetchText : String → Except Nat String)
    (sheet_url : String) : Except ApiError (ImportResult × Store) :=
  match db with
  | none => Except.error ApiError.storeUnavailable
  | some st =>
    match fetch_google_sheet_csv fetchText sheet_url with
    | Except.error e => Except.error e
    | Except.ok csv_text =>
      match parse_turbine_csv csv_text with
      | Except.error _ => Except.error ApiError.internalError
      | Except.ok turbines => Except.ok (importLoop st 0 0 turbines)

/-- Modelled from the spec: `find(collection, filter)` of the store, for the
only filter shapes `list_turbines` builds — either no constraint or an exact
`status` equality. -/
def get_documents (st : Store) (filt : Option String) : List (Nat × Turbine) :=
  match filt with
  | none => st.docs
  | some s => st.docs.filter (fun d => d.2.status = s)

/-- `list_turbines` (src/main.py lines 181-189): an empty filter dict unless
the `status` query parameter is truthy, in which case the title-cased value
is matched exactly. -/
def list_turbines (db : Option Store) (status : Option String) :
    Except ApiError (List (Nat × Turbine)) :=
  match db with
  | none => Except.error ApiError.storeUnavailable
  | some st =>
    let filt : Option String :=
      match status with
      | none => none
      | some s => if s = "" then none else some (pyTitle s)
    Except.ok (get_documents st filt)

/-- Names of the documents currently stored, in store order. -/
def namesOf (st : Store) : List String := st.docs.map (fun d => d.2.name)

/-- The reconciliation counts exactly as the claim words them: walk the
records in order keeping the set of names present in the store; a record
whose name is not yet present counts as an insert (and adds its name),
every other record counts as an update. -/
def specReconcile (known : List String) : List Turbine → Nat × Nat
  | [] => (0, 0)
  | t :: ts =>
    if t.name ∈ known then
      let p := specReconcile known ts
      (p.1, p.2 + 1)
    else
      let p := specReconcile (t.name :: known) ts
      (p.1 + 1, p.2)

theorem stripPrefixL_some (p : List Char) : ∀ l r, stripPrefixL p l = some r → l = p ++ r := by
  induction p with
  | nil =>
    intro l r h
    simp only [stripPrefixL, Option.some.injEq] at h
    simp [h]
  | cons a ps ih =>
    intro l r h
    cases l with
    | nil => simp [stripPrefixL] at h
    | cons c cs =>
      simp only [stripPrefixL] at h
      by_cases hc : c = a
      · rw [if_pos hc] at h
        subst hc
        simp [ih cs r h]
      · rw [if_neg hc] at h
        exact absurd h (by simp)

theorem findSplit_some (sep : List Char) :
    ∀ l b a, findSplit sep l = some (b, a) → l = b ++ sep ++ a := by
  intro l
  induction l with
  | nil =>
    intro b a h
    simp [findSplit] at h
  | cons c cs ih =>
    intro b a h
    rw [findSplit] at h
    cases hsp : stripPrefixL sep (c :: cs) with
    | some rest =>
      rw [hsp] at h
      have hb : ([] : List Char) = b := congrArg Prod.fst (Option.some.inj h)
      have ha : rest = a := congrArg Prod.snd (Option.some.inj h)
      subst hb
      subst ha
      simpa using stripPrefixL_some sep (c :: cs) _ hsp
    | none =>
      rw [hsp] at h
      cases hfs : findSplit sep cs with
      | none =>
        rw [hfs] at h
        simp at h
      | some p =>
        obtain ⟨b1, a1⟩ := p
        rw [hfs] at h
        have hb : c :: b1 = b := congrArg Prod.fst (Option.some.inj h)
        have ha : a1 = a := congrArg Prod.snd (Option.some.inj h)
        subst hb
        subst ha
        simp [ih b1 a1 hfs]

theorem findSplit_none_of_not_infix (sep l : List Char) (h : ¬ sep <:+: l) :
    findSplit sep l = none := by
  cases hfs : findSplit sep l with
  | none => rfl
  | some p =>
    obtain ⟨b, a⟩ := p
    exact absurd ⟨b, a, (findSplit_some sep l b a hfs).symm⟩ h

theorem pySplit_no_sep (sep s : String) (h : ¬ sep.toList <:+: s.toList) :
    pySplit sep s = [s] := by
  have hf : findSplit sep.toList s.toList = none := findSplit_none_of_not_infix _ _ h
  rw [pySplit, splitFuel, hf]
  rfl

/-- C6: the URL resolver is idempotent on export URLs — an input containing
the literal marker `export?format=csv` is returned unchanged. -/
theorem resolver_fixes_export_urls (sheet_url : String)
    (h : "export?format=csv".toList <:+: sheet_url.toList) :
    resolve_sheet_url sheet_url = Except.ok sheet_url := by
  rw [resolve_sheet_url, if_pos h]

theorem resolver_fixes_export_urls_witness :
    resolve_sheet_url "https://x.test/a/export?format=csv" =
      Except.ok "https://x.test/a/export?format=csv" :=
  resolver_fixes_export_urls "https://x.test/a/export?format=csv" (by decide)

/-- C7 as stated is false: this input contains no `/d/` delimiter, yet the
resolver does not fail — the export-marker branch passes it through. -/
theorem resolver_accepts_export_marker_without_doc_id :
    resolve_sheet_url "export?format=csv" = Except.ok "export?format=csv" ∧
      ¬ "/d/".toList <:+: "export?format=csv".toList := by
  exact ⟨by rfl, by decide⟩

/-- C7 amended: an input that contains neither the delimiter `/d/` nor the
export marker `export?format=csv` makes the resolver fail with the
invalid-URL error, and no export URL is produced. -/
theorem resolver_rejects_without_doc_id_or_marker (s : String)
    (hm : ¬ "export?format=csv".toList <:+: s.toList)
    (hd : ¬ "/d/".toList <:+: s.toList) :
    resolve_sheet_url s = Except.error ApiError.invalidUrl := by
  rw [resolve_sheet_url, if_neg hm, pySplit_no_sep "/d/" s hd]

theorem resolver_rejects_without_doc_id_or_marker_witness :
    resolve_sheet_url "https://example.test/nope" = Except.error ApiError.invalidUrl :=
  resolver_rejects_without_doc_id_or_marker "https://example.test/nope" (by decide) (by decide)

/-- C2: the defensive numeric coercion yields an absent value — never zero —
for a missing cell, the empty cell, the literal tokens `NA` and `N/A`, and
for any cell text that fails to parse as a float. -/
theorem to_float_absent_on_empty_na_and_parse_failure :
    to_float none = none ∧
    (∀ s : String, s = "" ∨ s = "NA" ∨ s = "N/A" → to_float (some s) = none) ∧
    (∀ s : String, pyFloat s = none → to_float (some s) = none) := by
  refine ⟨rfl, ?_, ?_⟩
  · intro s hs
    rcases hs with rfl | rfl | rfl <;> rfl
  · intro s hp
    rw [to_float]
    split
    · rfl
    · exact hp

theorem to_float_absent_on_empty_na_and_parse_failure_witness :
    to_float (some "NA") = none ∧ to_float (some "12abc") = none :=
  ⟨to_float_absent_on_empty_na_and_parse_failure.2.1 "NA" (Or.inr (Or.inl rfl)),
   to_float_absent_on_empty_na_and_parse_failure.2.2 "12abc" (by rfl)⟩

theorem titleSpecCharB_shift (b : Bool) (c : Char) (cs : List Char) :
    (fun i a => titleSpecCharB b (c :: cs) (i + 1) a) = titleSpecCharB c.isAlpha cs := by
  funext i a
  cases i with
  | zero => rfl
  | succ j =>
    simp only [titleSpecCharB, Nat.succ_sub_one, List.get?_cons_succ]
    rfl

theorem titleGo_eq_mapIdx : ∀ (l : List Char) (b : Bool),
    titleGo b l = l.mapIdx (titleSpecCharB b l) := by
  intro l
  induction l with
  | nil => intro b; rfl
  | cons c cs ih =>
    intro b
    rw [titleGo, List.mapIdx_cons]
    refine congrArg₂ List.cons rfl ?_
    rw [ih c.isAlpha, titleSpecCharB_shift b c cs]

theorem pyTitle_eq_titleSpec (s : String) : pyTitle s = titleSpec s :=
  congrArg String.mk (titleGo_eq_mapIdx s.toList false)

/-- C3 as stated is false: for the status cell `in-service` the parser emits
`In-Service` (Python title casing capitalizes after the hyphen), while title
casing in the glossary's sense — capitalize the first letter of each
whitespace-separated word, lowercase the rest — yields `In-service`, and the
emitted status is not even a fixed point of glossary title casing. -/
theorem status_not_glossary_title_cased :
    parse_turbine_csv "name,status\nT1,in-service" =
      Except.ok [⟨"T1", "In-Service", none, none, none, none⟩] ∧
    glossaryTitle "in-service" = "In-service" ∧
    glossaryTitle "In-Service" ≠ "In-Service" :=
  ⟨by rfl, by rfl, by decide⟩

/-- C3 amended: the parser's output status is title-cased in Python's
`str.title` sense — a character is capitalized exactly when it is not
preceded by a letter (`titleSpec` states this positionally) — applied to the
resolved status cell with default `Unknown`; an absent or empty status cell
yields exactly `"Unknown"`. -/
theorem status_python_title_cased :
    (∀ fieldnames row, (recordOfRow fieldnames row).status =
      titleSpec (strOr (orS (normGet fieldnames row "status")
        (normGet fieldnames row "state")) "Unknown")) ∧
    (∀ fieldnames row,
      orS (normGet fieldnames row "status") (normGet fieldnames row "state") = none ∨
        orS (normGet fieldnames row "status") (normGet fieldnames row "state") = some "" →
      (recordOfRow fieldnames row).status = "Unknown") := by
  constructor
  · intro fn row
    exact pyTitle_eq_titleSpec _
  · intro fn row h
    show pyTitle (strOr (orS (normGet fn row "status") (normGet fn row "state")) "Unknown") =
      "Unknown"
    rcases h with h | h <;> rw [h] <;> rfl

theorem status_python_title_cased_witness :
    (recordOfRow ["name", "status"] ["T1", "in service"]).status =
      titleSpec (strOr (orS (normGet ["name", "status"] ["T1", "in service"] "status")
        (normGet ["name", "status"] ["T1", "in service"] "state")) "Unknown") ∧
    (recordOfRow ["name"] ["T1"]).status = "Unknown" :=
  ⟨status_python_title_cased.1 ["name", "status"] ["T1", "in service"],
   status_python_title_cased.2 ["name"] ["T1"] (Or.inl (by rfl))⟩

theorem orS_degenerate (x y : Option String) (hx : x = none ∨ x = some "")
    (hy : y = none ∨ y = some "") : orS x y = none ∨ orS x y = some "" := by
  rcases hx with rfl | rfl <;> rcases hy with rfl | rfl <;> simp [orS]

theorem strOr_degenerate (x : Option String) (d : String) (hx : x = none ∨ x = some "") :
    strOr x d = d := by
  rcases hx with rfl | rfl <;> rfl

theorem strOr_ne_empty (x : Option String) (d : String) (hd : d ≠ "") : strOr x d ≠ "" := by
  cases x with
  | none => exact hd
  | some s =>
    rw [strOr]
    split
    · exact hd
    · assumption

theorem to_float_degenerate (x : Option String) (hx : x = none ∨ x = some "") :
    to_float x = none := by
  rcases hx with rfl | rfl <;> rfl

theorem parseRows_ok_eq (fieldnames : List String) : ∀ rows ts,
    parseRows fieldnames rows = Except.ok ts →
    ts = (rows.filter (fun r => r ≠ [])).map (recordOfRow fieldnames) := by
  intro rows
  induction rows with
  | nil =>
    intro ts h
    rw [parseRows] at h
    simp [(Except.ok.inj h).symm]
  | cons row rest ih =>
    intro ts h
    rw [parseRows] at h
    by_cases hb : row = []
    · rw [if_pos hb] at h
      rw [List.filter_cons, if_neg (by simp [hb])]
      exact ih ts h
    · rw [if_neg hb] at h
      by_cases hlen : fieldnames.length < row.length
      · rw [if_pos hlen] at h
        exact absurd h (by simp)
      · rw [if_neg hlen] at h
        cases hr : parseRows fieldnames rest with
        | error e =>
          rw [hr] at h
          exact absurd h (by simp)
        | ok ts2 =>
          rw [hr] at h
          rw [List.filter_cons, if_pos (by simpa using hb), List.map_cons,
            ← ih ts2 hr, ← Except.ok.inj h]

theorem mem_dictInsert {α : Type} (d : List (String × α)) (k : String) (v : α)
    (q : String × α) (hq : q ∈ dictInsert d k v) : q ∈ d ∨ q = (k, v) := by
  rw [dictInsert] at hq
  split at hq
  · obtain ⟨p, hp, hpq⟩ := List.mem_map.1 hq
    by_cases hk : p.1 = k
    · rw [if_pos hk] at hpq
      exact Or.inr hpq.symm
    · rw [if_neg hk] at hpq
      exact Or.inl (hpq ▸ hp)
  · rcases List.mem_append.1 hq with h | h
    · exact Or.inl h
    · exact Or.inr (List.mem_singleton.1 h)

theorem foldl_dictInsert_forall {α : Type} (P : String × α → Prop) :
    ∀ (ps d : List (String × α)), (∀ p ∈ ps, P p) → (∀ q ∈ d, P q) →
      ∀ q ∈ ps.foldl (fun d p => dictInsert d p.1 p.2) d, P q := by
  intro ps
  induction ps with
  | nil =>
    intro d _ hd q hq
    exact hd q hq
  | cons p ps ih =>
    intro d hps hd q hq
    refine ih (dictInsert d p.1 p.2) (fun r hr => hps r (List.mem_cons_of_mem p hr)) ?_ q hq
    intro r hr
    rcases mem_dictInsert d p.1 p.2 r hr with h | h
    · exact hd r h
    · rw [h]
      exact hps p (List.mem_cons_self p ps)

theorem dictOfPairs_forall {α : Type} (P : String × α → Prop) (ps : List (String × α))
    (h : ∀ p ∈ ps, P p) : ∀ q ∈ dictOfPairs ps, P q :=
  foldl_dictInsert_forall P ps [] h (by simp)

theorem zipRestval_snd : ∀ (fieldnames row : List String) (p : String × Option String),
    p ∈ zipRestval fieldnames row → p.2 = none ∨ ∃ c ∈ row, p.2 = some c := by
  intro fieldnames
  induction fieldnames with
  | nil =>
    intro row p hp
    simp [zipRestval] at hp
  | cons f fs ih =>
    intro row p hp
    cases row with
    | nil =>
      rw [zipRestval] at hp
      rcases List.mem_cons.1 hp with h | h
      · exact Or.inl (by rw [h])
      · exact ih [] p h
    | cons c cs =>
      rw [zipRestval] at hp
      rcases List.mem_cons.1 hp with h | h
      · exact Or.inr ⟨c, List.mem_cons_self c cs, by rw [h]⟩
      · rcases ih cs p h with h2 | ⟨c2, hc2, he⟩
        · exact Or.inl h2
        · exact Or.inr ⟨c2, List.mem_cons_of_mem c hc2, he⟩

theorem normGet_empty_cells (fieldnames row : List String) (h : ∀ c ∈ row, c = "")
    (k : String) : normGet fieldnames row k = none ∨ normGet fieldnames row k = some "" := by
  rw [normGet, dictGet]
  cases hf : (normalizedDict fieldnames row).find? (fun p => p.1 = k) with
  | none => exact Or.inl rfl
  | some p =>
    refine Or.inr ?_
    have hmem := List.mem_of_find?_eq_some hf
    have hval : ∀ q ∈ normalizedDict fieldnames row, q.2 = "" := by
      refine dictOfPairs_forall (fun q => q.2 = "") _ ?_
      intro q hq
      obtain ⟨p0, hp0, rfl⟩ := List.mem_map.1 hq
      have hsnd : (p0.2.getD "") = "" := by
        rcases dictOfPairs_forall (fun q => q.2 = none ∨ ∃ c ∈ row, q.2 = some c) _
            (zipRestval_snd fieldnames row) p0 hp0 with h0 | ⟨c, hc, h0⟩
        · rw [h0]
          rfl
        · rw [h0, h c hc]
          rfl
      show pyStrip (p0.2.getD "") = ""
      rw [hsnd]
      rfl
    simp [hval p hmem]

/-- C4: a row in which none of the name aliases (`name`, `turbine`, `id`,
`identifier`) yields a non-empty value gets the sentinel name
`Unnamed Turbine`, and consequently the name of every record the parser
produces is non-empty. -/
theorem parsed_name_sentinel_and_nonempty :
    (∀ fieldnames row,
      (∀ a ∈ ["name", "turbine", "id", "identifier"],
        normGet fieldnames row a = none ∨ normGet fieldnames row a = some "") →
      (recordOfRow fieldnames row).name = "Unnamed Turbine") ∧
    (∀ txt ts, parse_turbine_csv txt = Except.ok ts → ∀ r ∈ ts, r.name ≠ "") := by
  have hname : ∀ fieldnames row, (recordOfRow fieldnames row).name ≠ "" := by
    intro fn row
    exact strOr_ne_empty _ _ (by decide)
  constructor
  · intro fn row h
    have h1 := h "name" (by simp)
    have h2 := h "turbine" (by simp)
    have h3 := h "id" (by simp)
    have h4 := h "identifier" (by simp)
    show strOr (orS (orS (orS (normGet fn row "name") (normGet fn row "turbine"))
      (normGet fn row "id")) (normGet fn row "identifier")) "Unnamed Turbine" = "Unnamed Turbine"
    exact strOr_degenerate _ _
      (orS_degenerate _ _ (orS_degenerate _ _ (orS_degenerate _ _ h1 h2) h3) h4)
  · intro txt ts hok r hr
    rw [parse_turbine_csv] at hok
    cases hc : csvRows txt with
    | error e =>
      rw [hc] at hok
      exact absurd hok (by simp)
    | ok rows =>
      rw [hc] at hok
      cases rows with
      | nil =>
        rw [← Except.ok.inj hok] at hr
        simp at hr
      | cons fn rest =>
        have hts := parseRows_ok_eq fn rest ts hok
        subst hts
        obtain ⟨row, _, rfl⟩ := List.mem_map.1 hr
        exact hname fn row

theorem parsed_name_sentinel_and_nonempty_witness :
    (recordOfRow ["col"] ["val"]).name = "Unnamed Turbine" ∧
    (⟨"A", "Unknown", none, none, none, none⟩ : Turbine).name ≠ "" :=
  ⟨parsed_name_sentinel_and_nonempty.1 ["col"] ["val"] (by decide),
   parsed_name_sentinel_and_nonempty.2 "name\nA"
     [⟨"A", "Unknown", none, none, none, none⟩] (by rfl)
     ⟨"A", "Unknown", none, none, none, none⟩ (by simp)⟩

/-- C5 is false as stated: here the three lines after the header are `A`,
the blank line, and `B`, yet the parser produces only two records — a blank
line is skipped by `csv.DictReader` and yields no record at all, rather than
a record with all fields at their defaults. -/
theorem parser_skips_blank_lines :
    parse_turbine_csv "name\nA\n\nB" =
      Except.ok [⟨"A", "Unknown", none, none, none, none⟩,
        ⟨"B", "Unknown", none, none, none, none⟩] ∧
    ((pySplit "\n" "name\nA\n\nB").drop 1).length = 3 :=
  ⟨by rfl, by rfl⟩

/-- C5 amended: every non-blank row the reader yields after the header
produces exactly one record, in input order; blank rows produce no record;
and a row whose cells are all empty still produces a record with every field
at its default. -/
theorem parser_one_record_per_nonblank_row :
    (∀ txt fieldnames rest ts, csvRows txt = Except.ok (fieldnames :: rest) →
      parse_turbine_csv txt = Except.ok ts →
      ts = (rest.filter (fun r => r ≠ [])).map (recordOfRow fieldnames)) ∧
    (∀ fieldnames row, (∀ c ∈ row, c = "") →
      recordOfRow fieldnames row =
        ⟨"Unnamed Turbine", "Unknown", none, none, none, none⟩) := by
  constructor
  · intro txt fn rest ts hc hok
    rw [parse_turbine_csv, hc] at hok
    exact parseRows_ok_eq fn rest ts hok
  · intro fn row h
    have hg := fun k => normGet_empty_cells fn row h k
    have hnm := strOr_degenerate _ "Unnamed Turbine"
      (orS_degenerate _ _ (orS_degenerate _ _ (orS_degenerate _ _ (hg "name") (hg "turbine"))
        (hg "id")) (hg "identifier"))
    have hstat := strOr_degenerate _ "Unknown" (orS_degenerate _ _ (hg "status") (hg "state"))
    have hlat := to_float_degenerate _ (orS_degenerate _ _ (hg "lat") (hg "latitude"))
    have hlng := to_float_degenerate _ (orS_degenerate _ _ (hg "lng") (hg "longitude"))
    have hcap := to_float_degenerate _
      (orS_degenerate _ _ (orS_degenerate _ _ (hg "capacity_mw") (hg "capacity")) (hg "mw"))
    have hloc : (match orS (orS (normGet fn row "location") (normGet fn row "site"))
        (normGet fn row "address") with
      | none => none
      | some s => if s = "" then none else some s) = (none : Option String) := by
      rcases orS_degenerate _ _ (orS_degenerate _ _ (hg "location") (hg "site"))
          (hg "address") with h0 | h0
      · rw [h0]
      · rw [h0]
        rfl
    simp only [recordOfRow]
    rw [hnm, hstat, hlat, hlng, hcap, hloc]
    rfl

theorem parser_one_record_per_nonblank_row_witness :
    [(⟨"A", "Unknown", none, none, none, none⟩ : Turbine),
      ⟨"B", "Unknown", none, none, none, none⟩] =
      ([["A"], [], ["B"]].filter (fun r => r ≠ [])).map (recordOfRow ["name"]) ∧
    recordOfRow ["a", "b"] ["", ""] = ⟨"Unnamed Turbine", "Unknown", none, none, none, none⟩ :=
  ⟨parser_one_record_per_nonblank_row.1 "name\nA\n\nB" ["name"] [["A"], [], ["B"]]
    [⟨"A", "Unknown", none, none, none, none⟩, ⟨"B", "Unknown", none, none, none, none⟩]
    (by rfl) (by rfl),
   parser_one_record_per_nonblank_row.2 ["a", "b"] ["", ""] (by decide)⟩

theorem find_one_none_iff (st : Store) (n : String) :
    find_one st n = none ↔ n ∉ namesOf st := by
  rw [find_one, List.find?_eq_none, namesOf]
  simp

theorem mem_namesOf_of_find (st : Store) (n : String) (ex : Nat × Turbine)
    (h : find_one st n = some ex) : n ∈ namesOf st := by
  have hm := List.mem_of_find?_eq_some h
  have hp := List.find?_some h
  simp only [decide_eq_true_eq] at hp
  exact List.mem_map.2 ⟨ex, hm, hp⟩

theorem find_one_create (st : Store) (t : Turbine) (m : String) :
    find_one (create_document st t) m =
      (find_one st m).or (if t.name = m then some (st.nextId, t) else none) := by
  rw [find_one, create_document]
  show (st.docs ++ [(st.nextId, t)]).find? (fun d => d.2.name = m) = _
  rw [List.find?_append]
  by_cases h : t.name = m <;> simp [find_one, List.find?, h]

theorem namesOf_create (st : Store) (t : Turbine) :
    namesOf (create_document st t) = namesOf st ++ [t.name] := by
  simp [namesOf, create_document]

theorem WF_create (st : Store) (t : Turbine) (h : WFStore st) :
    WFStore (create_document st t) := by
  obtain ⟨h1, h2⟩ := h
  constructor
  · show ((st.docs ++ [(st.nextId, t)]).map Prod.fst).Nodup
    rw [List.map_append, List.nodup_append]
    refine ⟨h1, by simp, ?_⟩
    intro i hi
    obtain ⟨d, hd, rfl⟩ := List.mem_map.1 hi
    simp only [List.map_cons, List.map_nil, List.mem_singleton]
    intro he
    exact absurd (he ▸ h2 d hd) (lt_irrefl st.nextId)
  · intro d hd
    rcases List.mem_append.1 hd with h | h
    · exact Nat.lt_succ_of_lt (h2 d h)
    · rw [List.mem_singleton.1 h]
      exact Nat.lt_succ_self st.nextId

theorem updateFirst_find (l : List (Nat × Turbine)) (hnd : (l.map Prod.fst).Nodup)
    (t : Turbine) (ex : Nat × Turbine)
    (hex : l.find? (fun d => d.2.name = t.name) = some ex) :
    (updateFirst l ex.1 t).map Prod.fst = l.map Prod.fst ∧
    (updateFirst l ex.1 t).map (fun d => d.2.name) = l.map (fun d => d.2.name) ∧
    ∀ m, (updateFirst l ex.1 t).find? (fun d => d.2.name = m) =
      if m = t.name then some (ex.1, t) else l.find? (fun d => d.2.name = m) := by
  induction l with
  | nil => simp at hex
  | cons d ds ih =>
    rw [List.map_cons, List.nodup_cons] at hnd
    by_cases hd : d.2.name = t.name
    · have hex2 : d = ex := by
        rw [List.find?_cons_of_pos ds (by simp [hd])] at hex
        exact Option.some.inj hex
      subst hex2
      rw [updateFirst, if_pos rfl]
      refine ⟨rfl, by simp [hd], ?_⟩
      intro m
      by_cases hm : m = t.name
      · subst hm
        rw [if_pos rfl, List.find?_cons_of_pos ds (by simp)]
      · have hm2 : t.name ≠ m := fun he => hm he.symm
        rw [if_neg hm, List.find?_cons_of_neg ds (by simp [hm2]),
          List.find?_cons_of_neg ds (by simp [hd, hm2])]
    · have hex2 : ds.find? (fun x => x.2.name = t.name) = some ex := by
        rwa [List.find?_cons_of_neg ds (by simp [hd])] at hex
      have hmem : ex ∈ ds := List.mem_of_find?_eq_some hex2
      have hne : d.1 ≠ ex.1 := by
        intro he
        exact hnd.1 (he ▸ List.mem_map_of_mem Prod.fst hmem)
      obtain ⟨i1, i2, i3⟩ := ih hnd.2 hex2
      rw [updateFirst, if_neg hne]
      refine ⟨by simp [i1], by simp [i2], ?_⟩
      intro m
      by_cases hm : m = t.name
      · subst hm
        rw [if_pos rfl, List.find?_cons_of_neg _ (by simp [hd])]
        have h3 := i3 t.name
        rwa [if_pos rfl] at h3
      · rw [if_neg hm]
        by_cases hdm : d.2.name = m
        · rw [List.find?_cons_of_pos _ (by simp [hdm]), List.find?_cons_of_pos _ (by simp [hdm])]
        · rw [List.find?_cons_of_neg _ (by simp [hdm]), List.find?_cons_of_neg _ (by simp [hdm])]
          have h3 := i3 m
          rwa [if_neg hm] at h3

theorem update_props (st : Store) (hwf : WFStore st) (t : Turbine) (ex : Nat × Turbine)
    (hex : find_one st t.name = some ex) :
    WFStore (update_one st ex.1 t) ∧ namesOf (update_one st ex.1 t) = namesOf st ∧
    ∀ m, find_one (update_one st ex.1 t) m =
      if m = t.name then some (ex.1, t) else find_one st m := by
  obtain ⟨h1, h2⟩ := hwf
  obtain ⟨u1, u2, u3⟩ := updateFirst_find st.docs h1 t ex hex
  refine ⟨⟨?_, ?_⟩, ?_, ?_⟩
  · show ((updateFirst st.docs ex.1 t).map Prod.fst).Nodup
    rw [u1]
    exact h1
  · intro d hd
    show d.1 < st.nextId
    have : d.1 ∈ (updateFirst st.docs ex.1 t).map Prod.fst := List.mem_map_of_mem Prod.fst hd
    rw [u1] at this
    obtain ⟨d2, hd2, he⟩ := List.mem_map.1 this
    exact he ▸ h2 d2 hd2
  · show (updateFirst st.docs ex.1 t).map (fun d => d.2.name) = namesOf st
    rw [u2]
    rfl
  · exact u3

theorem specReconcile_congr : ∀ (ts : List Turbine) (k1 k2 : List String),
    (∀ n, n ∈ k1 ↔ n ∈ k2) → specReconcile k1 ts = specReconcile k2 ts := by
  intro ts
  induction ts with
  | nil =>
    intro k1 k2 _
    rfl
  | cons t ts ih =>
    intro k1 k2 hk
    rw [specReconcile, specReconcile]
    by_cases hm : t.name ∈ k1
    · rw [if_pos hm, if_pos ((hk t.name).1 hm), ih k1 k2 hk]
    · rw [if_neg hm, if_neg (fun c => hm ((hk t.name).2 c)),
        ih (t.name :: k1) (t.name :: k2) (by intro n; simp [hk n])]

theorem getLast?_cons_eq {α : Type} (a : α) (l : List α) :
    (a :: l).getLast? = match l.getLast? with
      | none => some a
      | some b => some b := by
  cases l with
  | nil => rfl
  | cons b bs =>
    rw [List.getLast?_cons_cons]
    cases h : (b :: bs).getLast? with
    | none => exact absurd (List.getLast?_eq_none_iff.1 h) (by simp)
    | some x => rfl

theorem importLoop_spec : ∀ (ts : List Turbine) (st : Store) (ins upd : Nat), WFStore st →
    ((importLoop st ins upd ts).1.inserted = ins + (specReconcile (namesOf st) ts).1 ∧
     (importLoop st ins upd ts).1.updated = upd + (specReconcile (namesOf st) ts).2) ∧
    WFStore (importLoop st ins upd ts).2 ∧
    ∀ m, (find_one (importLoop st ins upd ts).2 m).map (fun d => d.2) =
      match (ts.filter (fun t => t.name = m)).getLast? with
      | some t => some t
      | none => (find_one st m).map (fun d => d.2) := by
  intro ts
  induction ts with
  | nil =>
    intro st ins upd hwf
    refine ⟨⟨by simp [importLoop, specReconcile], by simp [importLoop, specReconcile]⟩, hwf, ?_⟩
    intro m
    rfl
  | cons t ts ih =>
    intro st ins upd hwf
    cases hf : find_one st t.name with
    | none =>
      have hnm : t.name ∉ namesOf st := (find_one_none_iff st t.name).1 hf
      have hloop : importLoop st ins upd (t :: ts) =
          importLoop (create_document st t) (ins + 1) upd ts := by
        rw [importLoop, hf]
      have hcong : specReconcile (namesOf (create_document st t)) ts =
          specReconcile (t.name :: namesOf st) ts := by
        refine specReconcile_congr ts _ _ ?_
        intro n
        rw [namesOf_create]
        simp [or_comm]
      obtain ⟨⟨c1, c2⟩, cwf, cfind⟩ := ih (create_document st t) (ins + 1) upd (WF_create st t hwf)
      rw [hloop]
      have hspec1 : (specReconcile (namesOf st) (t :: ts)).1 =
          (specReconcile (t.name :: namesOf st) ts).1 + 1 := by
        simp [specReconcile, hnm]
      have hspec2 : (specReconcile (namesOf st) (t :: ts)).2 =
          (specReconcile (t.name :: namesOf st) ts).2 := by
        simp [specReconcile, hnm]
      refine ⟨⟨?_, ?_⟩, cwf, ?_⟩
      · rw [c1, hcong, hspec1]
        omega
      · rw [c2, hcong, hspec2]
      · intro m
        rw [cfind m]
        by_cases hm : t.name = m
        · subst hm
          rw [List.filter_cons, if_pos (by simp)]
          cases hlast : (ts.filter (fun x => x.name = t.name)).getLast? with
          | some b => rw [getLast?_cons_eq, hlast]
          | none =>
            rw [getLast?_cons_eq, hlast]
            show (find_one (create_document st t) t.name).map (fun d => d.2) = some t
            rw [find_one_create, hf]
            simp
        · rw [List.filter_cons, if_neg (by simp [hm])]
          cases hlast : (ts.filter (fun x => x.name = m)).getLast? with
          | some b => rfl
          | none =>
            show (find_one (create_document st t) m).map (fun d => d.2) =
              (find_one st m).map (fun d => d.2)
            rw [find_one_create, if_neg hm]
            simp
    | some ex =>
      have hn : t.name ∈ namesOf st := mem_namesOf_of_find st t.name ex hf
      obtain ⟨uwf, unames, ufind⟩ := update_props st hwf t ex hf
      have hloop : importLoop st ins upd (t :: ts) =
          importLoop (update_one st ex.1 t) ins (upd + 1) ts := by
        rw [importLoop, hf]
      obtain ⟨⟨c1, c2⟩, cwf, cfind⟩ := ih (update_one st ex.1 t) ins (upd + 1) uwf
      rw [hloop]
      have hspec1 : (specReconcile (namesOf st) (t :: ts)).1 =
          (specReconcile (namesOf st) ts).1 := by
        simp [specReconcile, hn]
      have hspec2 : (specReconcile (namesOf st) (t :: ts)).2 =
          (specReconcile (namesOf st) ts).2 + 1 := by
        simp [specReconcile, hn]
      refine ⟨⟨?_, ?_⟩, cwf, ?_⟩
      · rw [c1, unames, hspec1]
      · rw [c2, unames, hspec2]
        omega
      · intro m
        rw [cfind m]
        by_cases hm : t.name = m
        · subst hm
          rw [List.filter_cons, if_pos (by simp)]
          cases hlast : (ts.filter (fun x => x.name = t.name)).getLast? with
          | some b => rw [getLast?_cons_eq, hlast]
          | none =>
            rw [getLast?_cons_eq, hlast]
            show (find_one (update_one st ex.1 t) t.name).map (fun d => d.2) = some t
            rw [ufind t.name, if_pos rfl]
            rfl
        · rw [List.filter_cons, if_neg (by simp [hm])]
          cases hlast : (ts.filter (fun x => x.name = m)).getLast? with
          | some b => rfl
          | none =>
            show (find_one (update_one st ex.1 t) m).map (fun d => d.2) =
              (find_one st m).map (fun d => d.2)
            rw [ufind m, if_neg (fun he => hm he.symm)]

/-- C1: for any well-formed store and any record sequence, the import loop
looks up each record by exact name match in input order; it counts an insert
exactly when the record's name is not yet present (in the initial store or
inserted earlier in the same call) and an update otherwise, and the document
stored under each name occurring in the input carries exactly the data
fields of that name's final occurrence (last write wins). -/
theorem import_reconciles_last_write_wins (st : Store) (hwf : WFStore st)
    (ts : List Turbine) :
    ((importLoop st 0 0 ts).1.inserted, (importLoop st 0 0 ts).1.updated) =
      specReconcile (namesOf st) ts ∧
    ∀ n, (ts.filter (fun t => t.name = n)) ≠ [] →
      (find_one (importLoop st 0 0 ts).2 n).map (fun d => d.2) =
        (ts.filter (fun t => t.name = n)).getLast? := by
  obtain ⟨⟨c1, c2⟩, _, cfind⟩ := importLoop_spec ts st 0 0 hwf
  constructor
  · rw [Prod.ext_iff]
    constructor
    · rw [c1]
      omega
    · rw [c2]
      omega
  · intro n hne
    have hc := cfind n
    cases hlast : (ts.filter (fun t => t.name = n)).getLast? with
    | none => exact absurd (List.getLast?_eq_none_iff.1 hlast) hne
    | some b =>
      rw [hlast] at hc
      rw [hc]

theorem import_reconciles_last_write_wins_witness :
    ((importLoop ⟨[], 0⟩ 0 0
        [⟨"A", "Active", none, none, none, none⟩,
         ⟨"A", "Inactive", none, none, none, none⟩]).1.inserted,
      (importLoop ⟨[], 0⟩ 0 0
        [⟨"A", "Active", none, none, none, none⟩,
         ⟨"A", "Inactive", none, none, none, none⟩]).1.updated) =
      specReconcile (namesOf ⟨[], 0⟩)
        [⟨"A", "Active", none, none, none, none⟩,
         ⟨"A", "Inactive", none, none, none, none⟩] ∧
    (find_one (importLoop ⟨[], 0⟩ 0 0
        [⟨"A", "Active", none, none, none, none⟩,
         ⟨"A", "Inactive", none, none, none, none⟩]).2 "A").map (fun d => d.2) =
      ([⟨"A", "Active", none, none, none, none⟩,
        (⟨"A", "Inactive", none, none, none, none⟩ : Turbine)].filter
          (fun t => t.name = "A")).getLast? := by
  have h := import_reconciles_last_write_wins ⟨[], 0⟩ (by decide)
    [⟨"A", "Active", none, none, none, none⟩, ⟨"A", "Inactive", none, none, none, none⟩]
  exact ⟨h.1, h.2 "A" (by decide)⟩

/-- C8: with the Catalog Store not configured, the import endpoint fails
with the store-unavailable error, for every fetch oracle and every URL — so
nothing is fetched, parsed or written and no store state exists to change. -/
theorem import_store_unavailable_before_anything (fetchText : String → Except Nat String)
    (sheet_url : String) :
    import_turbines none fetchText sheet_url = Except.error ApiError.storeUnavailable := rfl

theorem importLoop_sum : ∀ (ts : List Turbine) (st : Store) (ins upd : Nat),
    (importLoop st ins upd ts).1.inserted + (importLoop st ins upd ts).1.updated =
      ins + upd + ts.length := by
  intro ts
  induction ts with
  | nil =>
    intro st ins upd
    simp [importLoop]
  | cons t ts ih =>
    intro st ins upd
    cases hf : find_one st t.name with
    | none =>
      rw [importLoop, hf]
      rw [ih (create_document st t) (ins + 1) upd]
      simp
      omega
    | some ex =>
      rw [importLoop, hf]
      rw [ih (update_one st ex.1 t) ins (upd + 1)]
      simp
      omega

/-- C9: when an import call succeeds, every parsed record is counted exactly
once as an insert or an update: the returned inserted count plus updated
count equals the number of records the parser produced for that call. -/
theorem import_counts_partition_records (db : Option Store)
    (fetchText : String → Except Nat String) (sheet_url : String)
    (res : ImportResult) (st2 : Store)
    (h : import_turbines db fetchText sheet_url = Except.ok (res, st2))
    (csv_text : String) (ts : List Turbine)
    (htxt : fetch_google_sheet_csv fetchText sheet_url = Except.ok csv_text)
    (hts : parse_turbine_csv csv_text = Except.ok ts) :
    res.inserted + res.updated = ts.length := by
  cases db with
  | none => exact absurd h (by simp [import_turbines])
  | some st =>
    rw [import_turbines, htxt] at h
    dsimp only at h
    rw [hts] at h
    dsimp only at h
    have he : importLoop st 0 0 ts = (res, st2) := Except.ok.inj h
    have hsum := importLoop_sum ts st 0 0
    rw [he] at hsum
    simpa using hsum

theorem import_counts_partition_records_witness :
    (ImportResult.mk 1 0).inserted + (ImportResult.mk 1 0).updated =
      [(⟨"A", "Unknown", none, none, none, none⟩ : Turbine)].length :=
  import_counts_partition_records (some ⟨[], 0⟩) (fun _ => Except.ok "name\nA") "x/d/y"
    ⟨1, 0⟩ ⟨[(0, ⟨"A", "Unknown", none, none, none, none⟩)], 1⟩ (by rfl)
    "name\nA" [⟨"A", "Unknown", none, none, none, none⟩] (by rfl) (by rfl)

/-- C10: on the list endpoint an empty-string status parameter is treated
exactly like an omitted one — the filter dict stays empty and every stored
turbine document is returned. -/
theorem list_empty_status_unfiltered (st : Store) :
    list_turbines (some st) (some "") = list_turbines (some st) none ∧
    list_turbines (some st) (some "") = Except.ok st.docs :=
  ⟨rfl, rfl⟩

theorem import_store_unavailable_before_anything_witness :
    import_turbines none (fun _ => Except.ok "name\nA") "x/d/y" =
      Except.error ApiError.storeUnavailable :=
  import_store_unavailable_before_anything (fun _ => Except.ok "name\nA") "x/d/y"

theorem list_empty_status_unfiltered_witness :
    list_turbines (some ⟨[(0, ⟨"T1", "Active", none, none, none, none⟩)], 1⟩) (some "") =
      list_turbines (some ⟨[(0, ⟨"T1", "Active", none, none, none, none⟩)], 1⟩) none ∧
    list_turbines (some ⟨[(0, ⟨"T1", "Active", none, none, none, none⟩)], 1⟩) (some "") =
      Except.ok [(0, ⟨"T1", "Active", none, none, none, none⟩)] :=
  list_empty_status_unfiltered ⟨[(0, ⟨"T1", "Active", none, none, none, none⟩)], 1⟩
